import Mathlib

/-!
Shallow embedding of the `tecs` entity-component-system core
(`src/tecs/src/lib.rs` and `src/tecs/src/vecany.rs`).

Modelling conventions:
* `TypeId` is modelled as `Nat`; a type-erased value is a `Val`, a payload
  tagged with the runtime type identity of its Rust type.
* `VecAny` keeps the source's four fields: `ptr` (whether the backing buffer
  has been allocated, i.e. the `Option<*mut u8>` is `Some`), `len`, `cap`,
  and `id`; in addition `data` records the defined contents of the buffer:
  exactly those elements whose write landed within the allocated capacity.
  A write at or past `cap` is out of bounds in the source (undefined
  behavior) and stores nothing retrievable, so it leaves `data` unchanged.
* `RefCell` dynamic borrowing is modelled by an integer flag per cell:
  `0` = free, `n > 0` = `n` outstanding shared borrows, `-1` = an outstanding
  exclusive borrow.  `borrow()` panics iff the flag is negative;
  `borrow_mut()` panics iff the flag is nonzero.
* `HashMap` is modelled as an association list with insert-replaces-in-place
  semantics (`insertA`); maps built through the `World` API have distinct keys.
* A registered system acts on the world's data (tables and resources).
  `tick`/`submit` clone the system list before dispatch in the source, so a
  dispatch round always runs over the registration-order snapshot; the model
  reflects exactly that.
-/

namespace Tecs

/-- A type-erased value: a payload tagged with its runtime type identity. -/
structure Val where
  ty : Nat
  v : Nat
deriving DecidableEq, Repr

instance : Inhabited Val := ⟨⟨0, 0⟩⟩

/-- `VecAny` from `src/tecs/src/vecany.rs`. -/
structure VecAny where
  ptr : Bool
  len : Nat
  cap : Nat
  data : List Val
  id : Nat
deriving DecidableEq, Repr

namespace VecAny

/-- `VecAny::new::<T>()`: allocates a one-element buffer but sets `cap = 0`. -/
def new (t : Nat) : VecAny :=
  { ptr := true, len := 0, cap := 0, data := [], id := t }

/-- `VecAny::new_uninit(id)`: no allocation, `len = cap = 0`. -/
def new_uninit (t : Nat) : VecAny :=
  { ptr := false, len := 0, cap := 0, data := [], id := t }

/-- `VecAny::push::<T>(item)`.  The pushed item's type identity is `item.ty`
(in the source the operand type parameter `T` is the type of `item`).
Mirrors the source order: allocate if `ptr` is `None`, silently return on an
identity mismatch, double `cap` when `len == cap`, then increment `len` and
write the element at index `len - 1`.  The write targets element slot
`len - 1` of a buffer of `cap` elements: it stores the element only when it
lands within the allocation (`len - 1 < cap`, i.e. the old `len < cap` after
the doubling step); a write at or past `cap` is out of bounds in the source —
undefined behavior — and stores nothing retrievable, so `data` (the defined
buffer contents) is unchanged by it. -/
def push (va : VecAny) (item : Val) : VecAny :=
  let va := if va.ptr then va else { va with ptr := true }
  if va.id ≠ item.ty then va
  else
    let va := if va.len = va.cap then { va with cap := va.cap * 2 } else va
    { va with
        len := va.len + 1
        data := if va.len < va.cap then va.data ++ [item] else va.data }

/-- `VecAny::downcast_ref::<T>()`: `None` on an identity mismatch, and `None`
through the `self.ptr?` early return when the buffer was never allocated.
On success the source exposes `from_raw_parts(ptr, len)`; the model returns
the buffer's defined contents (`data`) — when `len` exceeds the number of
in-bounds stores, the remaining reads in the source are out of bounds and
their values undefined, so they are not part of the model's view. -/
def downcast_ref (va : VecAny) (t : Nat) : Option (List Val) :=
  if va.id ≠ t then none
  else if va.ptr then some va.data else none

/-- `VecAny::downcast_mut::<T>()`: same success condition as `downcast_ref`. -/
def downcast_mut (va : VecAny) (t : Nat) : Option (List Val) :=
  if va.id ≠ t then none
  else if va.ptr then some va.data else none

end VecAny

/-- `Column` from `src/tecs/src/lib.rs`: a wrapper around one `VecAny`. -/
structure Column where
  data : VecAny
deriving DecidableEq, Repr

namespace Column

/-- `Column::new(ty)`. -/
def new (t : Nat) : Column := { data := VecAny.new_uninit t }

/-- `Column::push::<T>(item)`. -/
def push (c : Column) (item : Val) : Column := { data := c.data.push item }

end Column

/-- One `RefCell<Column>` slot of a table: the dynamic borrow flag plus the
column it guards. -/
structure RCell where
  flag : Int
  col : Column
deriving DecidableEq, Repr

/-- `Table` from `src/tecs/src/lib.rs`: a row count and an ordered list of
`(TypeId, RefCell<Column>)` pairs. -/
structure Table where
  length : Nat
  columns : List (Nat × RCell)
deriving DecidableEq, Repr

namespace Table

/-- `Table::new(columns)`: one empty column per supplied identity, in order. -/
def new (cols : List Nat) : Table :=
  { length := 0
    columns := cols.map fun t => (t, { flag := 0, col := Column.new t }) }

end Table

/-- The generated `Archetype::add` body pushes the i-th field into the i-th
column yielded by `columns_mut()`.  (The `$(columns.next().unwrap()...)*`
expansion pairs fields and columns positionally; the transient `RefMut`
taken per column is released at the end of each push statement, so the net
borrow-flag effect is zero.) -/
def pushRow : List (Nat × RCell) → List Val → List (Nat × RCell)
  | cols, [] => cols
  | [], _ :: _ => []
  | (t, cell) :: cols, f :: fs =>
      (t, { flag := cell.flag, col := cell.col.push f }) :: pushRow cols fs

/-- The generated `Archetype::add(self, table)`: `table.length += 1`, then the
row of field values is pushed column by column. -/
def archetypeAdd (fields : List Val) (tb : Table) : Table :=
  { length := tb.length + 1, columns := pushRow tb.columns fields }

/-- Outcome of an operation that takes a dynamically checked borrow:
a successful result, the absence signal `None`, or a `RefCell` borrow panic. -/
inductive BorrowOutcome (α : Type) where
  | success (a : α)
  | absent
  | panics
deriving DecidableEq, Repr

/-- `Table::column::<T>()` on the column list: find the first column whose
identity is `t`, take a shared borrow (panics iff an exclusive borrow is
outstanding), then `Ref::filter_map(..., downcast_ref).ok()` — a failed
downcast drops the `Ref`, restoring the flag, and yields the absence signal. -/
def columnGo : List (Nat × RCell) → Nat → BorrowOutcome (List (Nat × RCell) × List Val)
  | [], _ => .absent
  | (t0, cell) :: rest, t =>
      if t0 = t then
        if cell.flag < 0 then .panics
        else
          match cell.col.data.downcast_ref t with
          | some xs =>
              .success ((t0, { flag := cell.flag + 1, col := cell.col }) :: rest, xs)
          | none => .absent
      else
        match columnGo rest t with
        | .success (rest1, xs) => .success ((t0, cell) :: rest1, xs)
        | .absent => .absent
        | .panics => .panics

/-- `Table::column_mut::<T>()` on the column list: find the first column whose
identity is `t`, take an exclusive borrow (panics iff any borrow is
outstanding), then `RefMut::filter_map(..., downcast_mut).ok()`. -/
def columnMutGo : List (Nat × RCell) → Nat → BorrowOutcome (List (Nat × RCell) × List Val)
  | [], _ => .absent
  | (t0, cell) :: rest, t =>
      if t0 = t then
        if cell.flag ≠ 0 then .panics
        else
          match cell.col.data.downcast_mut t with
          | some xs =>
              .success ((t0, { flag := -1, col := cell.col }) :: rest, xs)
          | none => .absent
      else
        match columnMutGo rest t with
        | .success (rest1, xs) => .success ((t0, cell) :: rest1, xs)
        | .absent => .absent
        | .panics => .panics

/-- `Table::column::<T>()`. -/
def Table.column (tb : Table) (t : Nat) : BorrowOutcome (Table × List Val) :=
  match columnGo tb.columns t with
  | .success (cols, xs) => .success ({ tb with columns := cols }, xs)
  | .absent => .absent
  | .panics => .panics

/-- `Table::column_mut::<T>()`. -/
def Table.column_mut (tb : Table) (t : Nat) : BorrowOutcome (Table × List Val) :=
  match columnMutGo tb.columns t with
  | .success (cols, xs) => .success ({ tb with columns := cols }, xs)
  | .absent => .absent
  | .panics => .panics

/-- Observer: the first column of the table whose identity is `t`
(the column `find` locates in `column` / `column_mut`). -/
def Table.findColumn (tb : Table) (t : Nat) : Option RCell :=
  (tb.columns.find? fun p => p.1 == t).map Prod.snd

/-- Association-list lookup, first binding wins (`HashMap::get`). -/
def lookupA {α : Type} : List (Nat × α) → Nat → Option α
  | [], _ => none
  | (k0, v) :: rest, k => if k0 = k then some v else lookupA rest k

/-- Association-list insert-or-replace in place (`HashMap::insert`). -/
def insertA {α : Type} : List (Nat × α) → Nat → α → List (Nat × α)
  | [], k, v => [(k, v)]
  | (k0, v0) :: rest, k, v =>
      if k0 = k then (k, v) :: rest else (k0, v0) :: insertA rest k v

/-- Association-list removal of the first binding (`HashMap::remove`). -/
def eraseA {α : Type} : List (Nat × α) → Nat → List (Nat × α)
  | [], _ => []
  | (k0, v0) :: rest, k =>
      if k0 = k then rest else (k0, v0) :: eraseA rest k

/-- The mutable world data a running system acts on: the table registry and
the resource registry of `World`. -/
structure WorldCore where
  archetypes : List (Nat × Table)
  resources : List (Nat × Val)
deriving Repr

/-- A registered system: either the `Handler` wrapper (event behavior only),
the `Ticker` wrapper (tick behavior only), or a direct implementation of the
`System` trait with both behaviors. -/
inductive Sys (E : Type) where
  | handler (f : WorldCore → E → WorldCore)
  | ticker (f : WorldCore → WorldCore)
  | system (ev : WorldCore → E → WorldCore) (tk : WorldCore → WorldCore)

namespace Sys

/-- `System::tick`: `Handler`'s tick body is empty. -/
def tick {E : Type} : Sys E → WorldCore → WorldCore
  | handler _, c => c
  | ticker f, c => f c
  | system _ tk, c => tk c

/-- `System::event`: `Ticker`'s event body is empty. -/
def event {E : Type} : Sys E → WorldCore → E → WorldCore
  | handler f, c, e => f c e
  | ticker _, c, _ => c
  | system ev _, c, e => ev c e

end Sys

/-- `World<E>`: tables, resources (the `WorldCore`) and the ordered list of
registered systems. -/
structure World (E : Type) where
  core : WorldCore
  systems : List (Sys E)

namespace World

variable {E : Type}

/-- `World::new()` / `Default`. -/
def new : World E :=
  { core := { archetypes := [], resources := [] }, systems := [] }

/-- `World::with_system(system)`: appends to the system list. -/
def with_system (w : World E) (s : Sys E) : World E :=
  { w with systems := w.systems ++ [s] }

/-- `World::with_handler(handler)`: wraps in `Handler` and appends. -/
def with_handler (w : World E) (f : WorldCore → E → WorldCore) : World E :=
  { w with systems := w.systems ++ [Sys.handler f] }

/-- `World::with_ticker(ticker)`: wraps in `Ticker` and appends. -/
def with_ticker (w : World E) (f : WorldCore → WorldCore) : World E :=
  { w with systems := w.systems ++ [Sys.ticker f] }

/-- `World::with_resource::<T>(resource)`: insert-or-replace keyed by
`TypeId::of::<T>`, the type identity of the value. -/
def with_resource (w : World E) (v : Val) : World E :=
  { w with core := { w.core with resources := insertA w.core.resources v.ty v } }

/-- `World::register::<T>()`: inserts a fresh table built from `T::columns()`. -/
def register (w : World E) (aid : Nat) (schema : List Nat) : World E :=
  { w with core := { w.core with
      archetypes := insertA w.core.archetypes aid (Table.new schema) } }

/-- `World::spawn::<T>(entity)`.  `aid` is `TypeId::of::<T>`, `schema` is
`T::columns()`, and `fields` are the entity's field values in declaration
order (`Archetype::add` pushes them positionally).  Returns the world and
the `EntityId` index `store.len() - 1`. -/
def spawn (w : World E) (aid : Nat) (schema : List Nat) (fields : List Val) :
    World E × Nat :=
  let w1 := if (lookupA w.core.archetypes aid).isSome then w
            else w.register aid schema
  match lookupA w1.core.archetypes aid with
  | some tb =>
      let tb1 := archetypeAdd fields tb
      ({ w1 with core := { w1.core with
           archetypes := insertA w1.core.archetypes aid tb1 } },
       tb1.length - 1)
  | none => (w1, 0)

/-- `World::get::<T>()`: dynamically checked shared borrow of the resource;
the `downcast_ref().unwrap()` always succeeds because the binding is keyed by
`TypeId::of::<T>`. -/
def get (w : World E) (t : Nat) : Option Val :=
  lookupA w.core.resources t

/-- `World::remove::<T>()`: removes the binding and returns the value by
value (the `Rc::into_inner` succeeds: the world holds the only strong
reference). -/
def remove (w : World E) (t : Nat) : World E × Option Val :=
  ({ w with core := { w.core with resources := eraseA w.core.resources t } },
   lookupA w.core.resources t)

/-- `World::tick()`: clones the system list, then runs every system's tick
behavior in registration order, each on the world state left by its
predecessors. -/
def tick (w : World E) : World E :=
  { w with core := w.systems.foldl (fun c s => s.tick c) w.core }

/-- `World::submit(event)`: clones the system list, then runs every system's
event behavior in registration order on the same event. -/
def submit (w : World E) (e : E) : World E :=
  { w with core := w.systems.foldl (fun c s => s.event c e) w.core }

end World

/-- The flattened shared query `world.query::<&T>()`: scans every table in
registry order, collects the successful `column::<T>()` borrows (skipping
tables that yield the absence signal), and flattens them into one sequence.
`none` records that some `column` call panicked on a borrow conflict. -/
def queryRefCollect : List (Nat × Table) → Nat → Option (List (List Val))
  | [], _ => some []
  | (_, tb) :: rest, t =>
      match tb.column t with
      | .success (_, xs) => (queryRefCollect rest t).map (xs :: ·)
      | .absent => queryRefCollect rest t
      | .panics => none

/-- `world.query::<&T>()` followed by `Columns::iter()`: the flattened
sequence of component references. -/
def World.queryRef {E : Type} (w : World E) (t : Nat) : Option (List Val) :=
  (queryRefCollect w.core.archetypes t).map List.flatten

/-- A sequence of spawns of one archetype: returns the final world and the
list of returned `EntityId` indices, in spawn order. -/
def spawnSeq {E : Type} (w : World E) (aid : Nat) (schema : List Nat) :
    List (List Val) → World E × List Nat
  | [] => (w, [])
  | e :: es =>
      let p := w.spawn aid schema e
      let q := spawnSeq p.1 aid schema es
      (q.1, p.2 :: q.2)

/-- One spawn request: archetype identity, its declared schema, and the
entity's field values. -/
structure SpawnOp where
  aid : Nat
  schema : List Nat
  fields : List Val

/-- Run a sequence of spawns of arbitrary archetypes. -/
def runSpawns {E : Type} (w : World E) : List SpawnOp → World E
  | [] => w
  | op :: ops => runSpawns (w.spawn op.aid op.schema op.fields).1 ops

/-!
Representation of the table reached by spawning `n` rows of one archetype
into a fresh table.  Every column was created through `Column::new` /
`VecAny::new_uninit`, so its capacity starts at 0, and `cap *= 2` never
grows it; each matching push therefore increments `len` but its element
write lands at or past the zero-sized allocation, so nothing is ever stored
within bounds and the defined buffer contents stay empty. -/

/-- A spawn-path column of identity `t` after `n` rows: `n` counted
elements, capacity stuck at zero, no element stored within the
allocation. -/
def mkColumn (n : Nat) (t : Nat) : Nat × RCell :=
  (t, { flag := 0
        col := { data := { ptr := n != 0, len := n, cap := 0, data := []
                           id := t } } })

/-- The columns of a spawn-path table for the schema `tys` after `n` rows. -/
def repCols : List Nat → Nat → List (Nat × RCell)
  | [], _ => []
  | t :: tys, n => mkColumn n t :: repCols tys n

/-- The spawn-path table of schema `s` after `n` rows. -/
def tableRep (s : List Nat) (n : Nat) : Table :=
  { length := n, columns := repCols s n }

/-- A table is well formed for schema `s`: the column identities are exactly
`s` in order, every column's array carries its declared identity, and every
column's length equals the table's row count (the claimed invariant). -/
def TableWF (s : List Nat) (tb : Table) : Prop :=
  tb.columns.map Prod.fst = s ∧
  ∀ p ∈ tb.columns, p.2.col.data.id = p.1 ∧ p.2.col.data.len = tb.length

/-- Every table of the world is well formed for its archetype's schema
(`sch` assigns to each archetype identity its declared column list). -/
def WorldWF {E : Type} (sch : Nat → List Nat) (w : World E) : Prop :=
  ∀ p ∈ w.core.archetypes, TableWF (sch p.1) p.2

theorem repCols_nil (s : List Nat) :
    repCols s 0 = (Table.new s).columns := by
  induction s with
  | nil => simp [repCols, Table.new]
  | cons t tys ih =>
      rw [repCols, ih]
      simp [Table.new, List.map_cons, mkColumn, Column.new, VecAny.new_uninit]

theorem tableRep_nil (s : List Nat) : tableRep s 0 = Table.new s := by
  simp [tableRep, Table.new, repCols_nil s]

theorem push_mkColumn (n t : Nat) (f : Val) (hty : f.ty = t) :
    (mkColumn n t).2.col.push f = (mkColumn (n + 1) t).2.col := by
  subst hty
  cases n with
  | zero => simp [mkColumn, Column.push, VecAny.push]
  | succ m =>
      have h1 : ((m + 1 : Nat) != 0) = true := by simp
      have h2 : ¬ (m + 1 = 0) := by omega
      simp [mkColumn, Column.push, VecAny.push, h1, h2]

theorem pushRow_rep (tys : List Nat) (n : Nat) (fs : List Val)
    (h : fs.map Val.ty = tys) :
    pushRow (repCols tys n) fs = repCols tys (n + 1) := by
  induction tys generalizing fs with
  | nil =>
      have hfs : fs = [] := by
        cases fs with
        | nil => rfl
        | cons f fs2 => simp at h
      subst hfs
      rfl
  | cons t tys ih =>
      cases fs with
      | nil => simp at h
      | cons f fs2 =>
          simp only [List.map_cons, List.cons.injEq] at h
          obtain ⟨hf, hfs⟩ := h
          rw [repCols, pushRow, ih fs2 hfs, repCols,
            push_mkColumn n t f hf]
          simp [mkColumn]

theorem add_rep (s : List Nat) (n : Nat) (e : List Val)
    (h : e.map Val.ty = s) :
    archetypeAdd e (tableRep s n) = tableRep s (n + 1) := by
  simp [archetypeAdd, tableRep, pushRow_rep s n e h]

theorem spawn_rep {E : Type} (aid : Nat) (s : List Nat) (n : Nat)
    (e : List Val) (res : List (Nat × Val)) (sys : List (Sys E))
    (h : e.map Val.ty = s) :
    World.spawn
        ({ core := { archetypes := [(aid, tableRep s n)], resources := res }
           systems := sys } : World E) aid s e =
      ({ core := { archetypes := [(aid, tableRep s (n + 1))]
                   resources := res }
         systems := sys }, n) := by
  have hadd := add_rep s n e h
  have hlen : (tableRep s (n + 1)).length = n + 1 := rfl
  simp [World.spawn, lookupA, insertA, hadd, hlen]

theorem spawnSeq_rep {E : Type} (aid : Nat) (s : List Nat)
    (es : List (List Val)) (n : Nat) (res : List (Nat × Val))
    (sys : List (Sys E)) (h : ∀ e ∈ es, e.map Val.ty = s) :
    spawnSeq
        ({ core := { archetypes := [(aid, tableRep s n)], resources := res }
           systems := sys } : World E) aid s es =
      ({ core := { archetypes := [(aid, tableRep s (n + es.length))]
                   resources := res }
         systems := sys },
       (List.range es.length).map (n + ·)) := by
  induction es generalizing n with
  | nil => simp [spawnSeq]
  | cons e es ih =>
      rw [spawnSeq]
      simp only [spawn_rep aid s n e res sys (h e (by simp)),
        ih (n + 1) (fun x hx => h x (by simp [hx]))]
      have harch : n + 1 + es.length = n + (e :: es).length := by
        rw [List.length_cons]; omega
      rw [harch]
      have hids : n :: (List.range es.length).map ((n + 1) + ·) =
          (List.range (e :: es).length).map (n + ·) := by
        simp only [List.length_cons, List.range_succ_eq_map, List.map_cons,
          List.map_map, Nat.add_zero]
        congr 1
        apply List.map_congr_left
        intro a _
        simp [Function.comp]
        omega
      rw [hids]

theorem spawnSeq_new_cons {E : Type} (aid : Nat) (s : List Nat)
    (e : List Val) (es : List (List Val))
    (h : ∀ x ∈ e :: es, x.map Val.ty = s) :
    spawnSeq (World.new : World E) aid s (e :: es) =
      ({ core := { archetypes := [(aid, tableRep s (es.length + 1))]
                   resources := [] }
         systems := [] },
       List.range (es.length + 1)) := by
  rw [spawnSeq]
  have h1 : World.spawn (World.new : World E) aid s e =
      ({ core := { archetypes := [(aid, tableRep s 1)], resources := [] }
         systems := [] }, 0) := by
    have hadd := add_rep s 0 e (h e (by simp))
    rw [tableRep_nil] at hadd
    simp only [Nat.zero_add] at hadd
    simp [World.spawn, World.new, World.register, lookupA, insertA, hadd,
      tableRep]
  simp only [h1, spawnSeq_rep aid s es 1 [] [] (fun x hx => h x (by simp [hx]))]
  have harch : 1 + es.length = es.length + 1 := by omega
  rw [harch]
  have hids : (0 : Nat) :: (List.range es.length).map ((1 : Nat) + ·) =
      List.range (es.length + 1) := by
    rw [List.range_succ_eq_map]
    congr 1
    apply List.map_congr_left
    intro a _
    omega
  rw [hids]

theorem columnGo_cons (p : Nat × RCell) (rest : List (Nat × RCell)) (t : Nat) :
    columnGo (p :: rest) t =
      if p.1 = t then
        if p.2.flag < 0 then .panics
        else
          match p.2.col.data.downcast_ref t with
          | some xs =>
              .success ((p.1, { flag := p.2.flag + 1, col := p.2.col }) :: rest, xs)
          | none => .absent
      else
        match columnGo rest t with
        | .success (rest1, xs) => .success (p :: rest1, xs)
        | .absent => .absent
        | .panics => .panics := rfl

theorem columnMutGo_cons (p : Nat × RCell) (rest : List (Nat × RCell)) (t : Nat) :
    columnMutGo (p :: rest) t =
      if p.1 = t then
        if p.2.flag ≠ 0 then .panics
        else
          match p.2.col.data.downcast_mut t with
          | some xs => .success ((p.1, { flag := -1, col := p.2.col }) :: rest, xs)
          | none => .absent
      else
        match columnMutGo rest t with
        | .success (rest1, xs) => .success (p :: rest1, xs)
        | .absent => .absent
        | .panics => .panics := rfl

theorem columnGo_rep (tys : List Nat) (n : Nat) (t : Nat)
    (ht : t ∈ tys) (hn : n ≠ 0) :
    ∃ cols1, columnGo (repCols tys n) t = .success (cols1, []) := by
  induction tys with
  | nil => cases ht
  | cons t0 tys ih =>
      simp only [repCols]
      by_cases h0 : t0 = t
      · subst h0
        have hptr : ((n : Nat) != 0) = true := by simpa using hn
        refine ⟨(t0, { flag := 1, col := (mkColumn n t0).2.col }) ::
          repCols tys n, ?_⟩
        rw [columnGo_cons]
        simp [mkColumn, VecAny.downcast_ref, hptr]
      · have hmem : t ∈ tys := by
          cases ht with
          | head => exact absurd rfl h0
          | tail _ hmem => exact hmem
        obtain ⟨cols1, hrec⟩ := ih hmem
        refine ⟨mkColumn n t0 :: cols1, ?_⟩
        rw [columnGo_cons]
        have hfst : (mkColumn n t0).1 = t0 := rfl
        rw [hfst, if_neg h0, hrec]

theorem column_rep (s : List Nat) (n : Nat) (t : Nat)
    (ht : t ∈ s) (hn : n ≠ 0) :
    ∃ tb1, (tableRep s n).column t = .success (tb1, []) := by
  obtain ⟨cols1, hgo⟩ := columnGo_rep s n t ht hn
  refine ⟨{ length := n, columns := cols1 }, ?_⟩
  rw [Table.column]
  simp only [tableRep] at hgo ⊢
  rw [hgo]

theorem repCols_mem (tys : List Nat) (n : Nat) (p : Nat × RCell)
    (hp : p ∈ repCols tys n) :
    p.2.col.data.len = n ∧ p.2.col.data.cap = 0 ∧ p.2.col.data.data = [] := by
  induction tys with
  | nil => simp [repCols] at hp
  | cons t tys ih =>
      simp only [repCols, List.mem_cons] at hp
      rcases hp with heq | hp1
      · subst heq
        simp [mkColumn]
      · exact ih hp1

theorem push_id (va : VecAny) (f : Val) : (va.push f).id = va.id := by
  obtain ⟨ptr, len, cap, data, id⟩ := va
  simp only [VecAny.push]
  cases ptr <;> by_cases h1 : id = f.ty <;> by_cases h2 : len = cap <;>
    simp [h1, h2]

theorem push_len_match (va : VecAny) (f : Val) (h : va.id = f.ty) :
    (va.push f).len = va.len + 1 := by
  obtain ⟨ptr, len, cap, data, id⟩ := va
  simp only at h
  simp only [VecAny.push]
  cases ptr <;> by_cases h2 : len = cap <;> simp [h, h2]

theorem tableWF_new (s : List Nat) : TableWF s (Table.new s) := by
  constructor
  · simp only [Table.new, List.map_map]
    have h : ∀ t ∈ s,
        (Prod.fst ∘ fun t => (t, ({ flag := 0, col := Column.new t } : RCell))) t
          = id t := fun t _ => rfl
    rw [List.map_congr_left h, List.map_id]
  · intro p hp
    simp only [Table.new, List.mem_map] at hp
    obtain ⟨t, _, rfl⟩ := hp
    simp [Column.new, VecAny.new_uninit, Table.new]

theorem pushRow_wf (cols : List (Nat × RCell)) (e : List Val) (n : Nat)
    (hty : cols.map Prod.fst = e.map Val.ty)
    (h : ∀ p ∈ cols, p.2.col.data.id = p.1 ∧ p.2.col.data.len = n) :
    (pushRow cols e).map Prod.fst = cols.map Prod.fst ∧
    ∀ p ∈ pushRow cols e, p.2.col.data.id = p.1 ∧ p.2.col.data.len = n + 1 := by
  induction cols generalizing e with
  | nil =>
      have : e.map Val.ty = [] := hty.symm.trans rfl |>.symm ▸ hty.symm
      have he : e = [] := by
        cases e with
        | nil => rfl
        | cons f fs => simp at hty
      subst he
      simp [pushRow]
  | cons p cols ih =>
      obtain ⟨t0, cell⟩ := p
      cases e with
      | nil => simp at hty
      | cons f fs =>
          simp only [List.map_cons, List.cons.injEq] at hty
          obtain ⟨hty0, htys⟩ := hty
          obtain ⟨hid, hlen⟩ := h (t0, cell) (by simp)
          obtain ⟨ihty, ihmem⟩ := ih fs htys
            (fun q hq => h q (by simp [hq]))
          rw [pushRow]
          refine ⟨by simp [ihty], ?_⟩
          intro q hq
          simp only [List.mem_cons] at hq
          rcases hq with rfl | hq
          · constructor
            · simp only [Column.push]
              rw [push_id]
              exact hid
            · simp only [Column.push]
              rw [push_len_match cell.col.data f (by rw [hid, hty0]), hlen]
          · exact ihmem q hq

theorem add_wf (s : List Nat) (tb : Table) (e : List Val)
    (he : e.map Val.ty = s) (hwf : TableWF s tb) :
    TableWF s (archetypeAdd e tb) := by
  obtain ⟨hty, hmem⟩ := hwf
  obtain ⟨hty1, hmem1⟩ := pushRow_wf tb.columns e tb.length (by rw [hty, he]) hmem
  exact ⟨by simpa [archetypeAdd, hty1] using hty, fun p hp => hmem1 p hp⟩

theorem lookupA_mem {α : Type} (l : List (Nat × α)) (k : Nat) (v : α)
    (h : lookupA l k = some v) : (k, v) ∈ l := by
  induction l with
  | nil => simp [lookupA] at h
  | cons p rest ih =>
      obtain ⟨k0, v0⟩ := p
      rw [lookupA] at h
      by_cases hk : k0 = k
      · subst hk
        simp at h
        simp [h]
      · rw [if_neg hk] at h
        simp [ih h]

theorem lookupA_insertA_self {α : Type} (l : List (Nat × α)) (k : Nat) (v : α) :
    lookupA (insertA l k v) k = some v := by
  induction l with
  | nil => simp [insertA, lookupA]
  | cons p rest ih =>
      obtain ⟨k0, v0⟩ := p
      rw [insertA]
      by_cases hk : k0 = k
      · simp [hk, lookupA]
      · rw [if_neg hk, lookupA, if_neg hk]
        exact ih

theorem lookupA_cons {α : Type} (k0 : Nat) (v0 : α) (rest : List (Nat × α))
    (k : Nat) :
    lookupA ((k0, v0) :: rest) k = if k0 = k then some v0 else lookupA rest k :=
  rfl

theorem lookupA_insertA_ne {α : Type} (l : List (Nat × α)) (k k1 : Nat) (v : α)
    (h : k1 ≠ k) : lookupA (insertA l k v) k1 = lookupA l k1 := by
  have hne : ¬ k = k1 := fun hh => h hh.symm
  induction l with
  | nil => simp [insertA, lookupA_cons, hne, lookupA]
  | cons p rest ih =>
      obtain ⟨k0, v0⟩ := p
      rw [insertA]
      by_cases hk : k0 = k
      · subst hk
        rw [if_pos rfl, lookupA_cons, lookupA_cons, if_neg hne, if_neg hne]
      · rw [if_neg hk, lookupA_cons, lookupA_cons]
        by_cases hk1 : k0 = k1
        · simp [hk1]
        · rw [if_neg hk1, if_neg hk1]
          exact ih

theorem insertA_mem {α : Type} (l : List (Nat × α)) (k : Nat) (v : α)
    (p : Nat × α) (h : p ∈ insertA l k v) : p = (k, v) ∨ p ∈ l := by
  induction l with
  | nil => simpa [insertA] using h
  | cons q rest ih =>
      obtain ⟨k0, v0⟩ := q
      rw [insertA] at h
      by_cases hk : k0 = k
      · rw [if_pos hk] at h
        simp only [List.mem_cons] at h
        rcases h with rfl | h
        · exact Or.inl rfl
        · exact Or.inr (by simp [h])
      · rw [if_neg hk] at h
        simp only [List.mem_cons] at h
        rcases h with rfl | h
        · exact Or.inr (by simp)
        · rcases ih h with h1 | h1
          · exact Or.inl h1
          · exact Or.inr (by simp [h1])

theorem spawn_wf {E : Type} (sch : Nat → List Nat) (w : World E) (aid : Nat)
    (fields : List Val) (hw : WorldWF sch w)
    (hf : fields.map Val.ty = sch aid) :
    WorldWF sch (w.spawn aid (sch aid) fields).1 := by
  cases hlk : lookupA w.core.archetypes aid with
  | some tb =>
      have hwf : TableWF (sch aid) tb := hw (aid, tb) (lookupA_mem _ _ _ hlk)
      intro p hp
      simp only [World.spawn, hlk, Option.isSome_some, if_true] at hp
      rcases insertA_mem _ _ _ _ hp with rfl | hp1
      · exact add_wf (sch aid) tb fields hf hwf
      · exact hw p hp1
  | none =>
      intro p hp
      simp only [World.spawn, hlk, Option.isSome_none, Bool.false_eq_true,
        if_false, World.register] at hp
      rw [lookupA_insertA_self] at hp
      simp only at hp
      rcases insertA_mem _ _ _ _ hp with rfl | hp1
      · exact add_wf (sch aid) (Table.new (sch aid)) fields hf (tableWF_new _)
      · rcases insertA_mem _ _ _ _ hp1 with rfl | hp2
        · exact tableWF_new _
        · exact hw p hp2

theorem runSpawns_wf {E : Type} (sch : Nat → List Nat) (ops : List SpawnOp)
    (w : World E) (hw : WorldWF sch w)
    (hops : ∀ op ∈ ops, op.schema = sch op.aid ∧
      op.fields.map Val.ty = op.schema) :
    WorldWF sch (runSpawns w ops) := by
  induction ops generalizing w with
  | nil => exact hw
  | cons op ops ih =>
      rw [runSpawns]
      obtain ⟨hs, hf⟩ := hops op (by simp)
      refine ih _ ?_ (fun q hq => hops q (by simp [hq]))
      rw [hs]
      exact spawn_wf sch w op.aid op.fields hw (hs ▸ hf)

theorem columnGo_success (cols : List (Nat × RCell)) (t : Nat) (cell : RCell)
    (xs : List Val)
    (hfind : (cols.find? fun p => p.1 == t).map Prod.snd = some cell)
    (hflag : 0 ≤ cell.flag)
    (hdc : cell.col.data.downcast_ref t = some xs) :
    ∃ cols1, columnGo cols t = .success (cols1, xs) ∧
      (cols1.find? fun p => p.1 == t).map Prod.snd =
        some { flag := cell.flag + 1, col := cell.col } := by
  induction cols with
  | nil => simp at hfind
  | cons p rest ih =>
      obtain ⟨t0, c0⟩ := p
      by_cases ht0 : t0 = t
      · subst ht0
        have hcell : c0 = cell := by simpa [List.find?_cons] using hfind
        subst hcell
        refine ⟨(t0, { flag := c0.flag + 1, col := c0.col }) :: rest, ?_, ?_⟩
        · rw [columnGo_cons]
          simp only [if_pos rfl]
          rw [if_neg (by omega : ¬ c0.flag < 0)]
          simp [hdc]
        · simp [List.find?_cons]
      · have hb : ((t0, c0).1 == t) = false := by simp [ht0]
        simp only [List.find?_cons, hb, Bool.false_eq_true, if_false] at hfind
        obtain ⟨cols1, hgo, hfind1⟩ := ih hfind
        refine ⟨(t0, c0) :: cols1, ?_, ?_⟩
        · rw [columnGo_cons, if_neg ht0, hgo]
        · simp only [List.find?_cons, hb, Bool.false_eq_true, if_false]
          exact hfind1

theorem columnMutGo_cons_eq (t0 : Nat) (c0 : RCell) (rest : List (Nat × RCell))
    (t : Nat) :
    columnMutGo ((t0, c0) :: rest) t =
      if t0 = t then
        if c0.flag ≠ 0 then .panics
        else
          match c0.col.data.downcast_mut t with
          | some xs => .success ((t0, { flag := -1, col := c0.col }) :: rest, xs)
          | none => .absent
      else
        match columnMutGo rest t with
        | .success (rest1, xs) => .success ((t0, c0) :: rest1, xs)
        | .absent => .absent
        | .panics => .panics := rfl

theorem columnMutGo_success (cols : List (Nat × RCell)) (t : Nat) (cell : RCell)
    (xs : List Val)
    (hfind : (cols.find? fun p => p.1 == t).map Prod.snd = some cell)
    (hflag : cell.flag = 0)
    (hdc : cell.col.data.downcast_mut t = some xs) :
    ∃ cols1, columnMutGo cols t = .success (cols1, xs) ∧
      (cols1.find? fun p => p.1 == t).map Prod.snd =
        some { flag := -1, col := cell.col } := by
  induction cols with
  | nil => simp at hfind
  | cons p rest ih =>
      obtain ⟨t0, c0⟩ := p
      by_cases ht0 : t0 = t
      · subst ht0
        have hcell : c0 = cell := by simpa [List.find?_cons] using hfind
        subst hcell
        refine ⟨(t0, { flag := -1, col := c0.col }) :: rest, ?_, ?_⟩
        · rw [columnMutGo_cons_eq, if_pos rfl, if_neg (not_not_intro hflag), hdc]
        · simp [List.find?_cons]
      · have hb : ((t0, c0).1 == t) = false := by simp [ht0]
        simp only [List.find?_cons, hb, Bool.false_eq_true, if_false] at hfind
        obtain ⟨cols1, hgo, hfind1⟩ := ih hfind
        refine ⟨(t0, c0) :: cols1, ?_, ?_⟩
        · rw [columnMutGo_cons_eq, if_neg ht0, hgo]
        · simp only [List.find?_cons, hb, Bool.false_eq_true, if_false]
          exact hfind1

theorem columnMutGo_panic (cols : List (Nat × RCell)) (t : Nat) (cell : RCell)
    (hfind : (cols.find? fun p => p.1 == t).map Prod.snd = some cell)
    (hflag : cell.flag ≠ 0) : columnMutGo cols t = .panics := by
  induction cols with
  | nil => simp at hfind
  | cons p rest ih =>
      obtain ⟨t0, c0⟩ := p
      by_cases ht0 : t0 = t
      · subst ht0
        have hcell : c0 = cell := by simpa [List.find?_cons] using hfind
        subst hcell
        rw [columnMutGo_cons_eq, if_pos rfl, if_pos hflag]
      · have hb : ((t0, c0).1 == t) = false := by simp [ht0]
        simp only [List.find?_cons, hb, Bool.false_eq_true, if_false] at hfind
        rw [columnMutGo_cons_eq, if_neg ht0, ih hfind]

theorem column_success (tb : Table) (t : Nat) (cell : RCell) (xs : List Val)
    (hfind : tb.findColumn t = some cell) (hflag : 0 ≤ cell.flag)
    (hdc : cell.col.data.downcast_ref t = some xs) :
    ∃ tb1, tb.column t = .success (tb1, xs) ∧
      tb1.findColumn t = some { flag := cell.flag + 1, col := cell.col } ∧
      tb1.length = tb.length := by
  obtain ⟨cols1, hgo, hfind1⟩ := columnGo_success tb.columns t cell xs hfind hflag hdc
  exact ⟨{ tb with columns := cols1 }, by rw [Table.column, hgo], hfind1, rfl⟩

theorem column_mut_success (tb : Table) (t : Nat) (cell : RCell) (xs : List Val)
    (hfind : tb.findColumn t = some cell) (hflag : cell.flag = 0)
    (hdc : cell.col.data.downcast_mut t = some xs) :
    ∃ tb1, tb.column_mut t = .success (tb1, xs) ∧
      tb1.findColumn t = some { flag := -1, col := cell.col } ∧
      tb1.length = tb.length := by
  obtain ⟨cols1, hgo, hfind1⟩ :=
    columnMutGo_success tb.columns t cell xs hfind hflag hdc
  exact ⟨{ tb with columns := cols1 }, by rw [Table.column_mut, hgo], hfind1, rfl⟩

theorem column_mut_panic (tb : Table) (t : Nat) (cell : RCell)
    (hfind : tb.findColumn t = some cell) (hflag : cell.flag ≠ 0) :
    tb.column_mut t = .panics := by
  rw [Table.column_mut, columnMutGo_panic tb.columns t cell hfind hflag]

theorem lookupA_none_of_not_mem {α : Type} (l : List (Nat × α)) (k : Nat)
    (h : k ∉ l.map Prod.fst) : lookupA l k = none := by
  induction l with
  | nil => rfl
  | cons p rest ih =>
      obtain ⟨k0, v0⟩ := p
      simp only [List.map_cons, List.mem_cons, not_or] at h
      rw [lookupA_cons, if_neg (fun hh => h.1 hh.symm)]
      exact ih h.2

theorem insertA_keys_sub {α : Type} (l : List (Nat × α)) (k : Nat) (v : α)
    (x : Nat) (h : x ∈ (insertA l k v).map Prod.fst) :
    x = k ∨ x ∈ l.map Prod.fst := by
  simp only [List.mem_map] at h
  obtain ⟨p, hp, rfl⟩ := h
  rcases insertA_mem _ _ _ _ hp with rfl | hp1
  · exact Or.inl rfl
  · exact Or.inr (List.mem_map_of_mem _ hp1)

theorem insertA_keys_nodup {α : Type} (l : List (Nat × α)) (k : Nat) (v : α)
    (h : (l.map Prod.fst).Nodup) : ((insertA l k v).map Prod.fst).Nodup := by
  induction l with
  | nil => simp [insertA]
  | cons p rest ih =>
      obtain ⟨k0, v0⟩ := p
      simp only [List.map_cons, List.nodup_cons] at h
      by_cases hk : k0 = k
      · subst hk
        rw [insertA, if_pos rfl]
        simp only [List.map_cons, List.nodup_cons]
        exact h
      · rw [insertA, if_neg hk]
        simp only [List.map_cons, List.nodup_cons]
        refine ⟨?_, ih h.2⟩
        intro hmem
        rcases insertA_keys_sub rest k v k0 hmem with rfl | hmem1
        · exact hk rfl
        · exact h.1 hmem1

theorem lookupA_eraseA_self {α : Type} (l : List (Nat × α)) (k : Nat)
    (h : (l.map Prod.fst).Nodup) : lookupA (eraseA l k) k = none := by
  induction l with
  | nil => rfl
  | cons p rest ih =>
      obtain ⟨k0, v0⟩ := p
      simp only [List.map_cons, List.nodup_cons] at h
      rw [eraseA]
      by_cases hk : k0 = k
      · subst hk
        rw [if_pos rfl]
        exact lookupA_none_of_not_mem rest k0 h.1
      · rw [if_neg hk, lookupA_cons, if_neg hk]
        exact ih h.2

theorem eraseA_absent {α : Type} (l : List (Nat × α)) (k : Nat)
    (h : lookupA l k = none) : eraseA l k = l := by
  induction l with
  | nil => rfl
  | cons p rest ih =>
      obtain ⟨k0, v0⟩ := p
      rw [lookupA_cons] at h
      by_cases hk : k0 = k
      · rw [if_pos hk] at h
        cases h
      · rw [if_neg hk] at h
        rw [eraseA, if_neg hk, ih h]

theorem spawn_len {E : Type} (w : World E) (aid : Nat) (s : List Nat)
    (e : List Val) (tb : Table)
    (hlk : lookupA w.core.archetypes aid = some tb) :
    (w.spawn aid s e).2 = tb.length ∧
    lookupA (w.spawn aid s e).1.core.archetypes aid =
      some (archetypeAdd e tb) := by
  simp only [World.spawn, hlk, Option.isSome_some, if_true]
  exact ⟨by simp [archetypeAdd], by rw [lookupA_insertA_self]⟩

theorem spawnSeq_ids {E : Type} (es : List (List Val)) (w : World E)
    (aid : Nat) (s : List Nat) (tb : Table)
    (hlk : lookupA w.core.archetypes aid = some tb) :
    (spawnSeq w aid s es).2 = (List.range es.length).map (tb.length + ·) := by
  induction es generalizing w tb with
  | nil => simp [spawnSeq]
  | cons e es ih =>
      obtain ⟨h2, h1⟩ := spawn_len w aid s e tb hlk
      have hlen : (archetypeAdd e tb).length = tb.length + 1 := rfl
      have hrest := ih (w.spawn aid s e).1 (archetypeAdd e tb) h1
      simp only [spawnSeq, h2, hrest, hlen]
      rw [List.length_cons, List.range_succ_eq_map]
      simp only [List.map_cons, List.map_map, Nat.add_zero]
      congr 1
      apply List.map_congr_left
      intro a _
      simp [Function.comp]
      omega

/-!  The claims.  -/

/-- Claim C1 concerns the query read-back of spawned components, and the
code violates it through the same defect as C3: every spawn-path column is
created by `new_uninit`, so its capacity starts at zero and `cap *= 2`
never grows it — each component write lands at or past the zero-sized
allocation (undefined behavior in the source) and stores nothing
retrievable.  This theorem evaluates the model on the claim's own setting:
after any nonempty sequence of spawns of one archetype, the query's defined
contents are the empty sequence — zero entries, never one per spawned
entity — while every column of the table counted every row (its `len`
equals the number of spawns) with its capacity still zero. -/
theorem claim_c1_eval {E : Type} (aid t : Nat) (s : List Nat)
    (es : List (List Val)) (ht : t ∈ s)
    (hes : ∀ e ∈ es, e.map Val.ty = s) (hne : es ≠ []) :
    ((spawnSeq (World.new : World E) aid s es).1.queryRef t = some []) ∧
    (([] : List Val).length ≠ es.length) ∧
    (∀ p ∈ (spawnSeq (World.new : World E) aid s es).1.core.archetypes,
      p.2.length = es.length ∧
      ∀ q ∈ p.2.columns, q.2.col.data.len = es.length ∧
        q.2.col.data.cap = 0 ∧ q.2.col.data.data = []) := by
  cases es with
  | nil => exact absurd rfl hne
  | cons e es2 =>
      rw [spawnSeq_new_cons aid s e es2 hes]
      refine ⟨?_, by simp, ?_⟩
      · obtain ⟨tb1, hcol⟩ := column_rep s (es2.length + 1) t ht (by omega)
        simp only [World.queryRef, queryRefCollect, hcol]
        simp
      · intro p hp
        simp only [List.mem_singleton] at hp
        subst hp
        refine ⟨by simp [tableRep], ?_⟩
        intro q hq
        have hmem := repCols_mem s (es2.length + 1) q
          (by simpa [tableRep] using hq)
        simpa [List.length_cons] using hmem

/-- Claim C1 failing input evaluated concretely: two spawns of a one-column
archetype of identity 1. -/
theorem claim_c1_eval_witness :
    ((1 : Nat) ∈ [1] ∧
     (∀ e ∈ [[Val.mk 1 4], [Val.mk 1 6]], e.map Val.ty = [1]) ∧
     [[Val.mk 1 4], [Val.mk 1 6]] ≠ ([] : List (List Val))) ∧
    (((spawnSeq (World.new : World Nat) 0 [1]
        [[Val.mk 1 4], [Val.mk 1 6]]).1.queryRef 1 = some []) ∧
     (([] : List Val).length ≠ [[Val.mk 1 4], [Val.mk 1 6]].length) ∧
     (∀ p ∈ (spawnSeq (World.new : World Nat) 0 [1]
         [[Val.mk 1 4], [Val.mk 1 6]]).1.core.archetypes,
       p.2.length = [[Val.mk 1 4], [Val.mk 1 6]].length ∧
       ∀ q ∈ p.2.columns,
         q.2.col.data.len = [[Val.mk 1 4], [Val.mk 1 6]].length ∧
         q.2.col.data.cap = 0 ∧ q.2.col.data.data = [])) :=
  ⟨⟨by decide, by decide, by decide⟩,
   claim_c1_eval 0 1 [1] [[Val.mk 1 4], [Val.mk 1 6]] (by decide) (by decide)
     (by decide)⟩

/-- Claim C2: in any world reached from a fresh world by a sequence of spawns
whose requests match their archetypes' declared schemas, every column of every
table has array length equal to its table's row count. -/
theorem claim_c2 {E : Type} (sch : Nat → List Nat) (ops : List SpawnOp)
    (hops : ∀ op ∈ ops, op.schema = sch op.aid ∧
      op.fields.map Val.ty = op.schema) :
    ∀ p ∈ (runSpawns (World.new : World E) ops).core.archetypes,
      ∀ q ∈ p.2.columns, q.2.col.data.len = p.2.length := by
  have h := runSpawns_wf sch ops (World.new : World E)
    (by intro p hp; simp [World.new] at hp) hops
  intro p hp q hq
  exact ((h p hp).2 q hq).2

/-- Claim C2 witness: two spawns of a one-column archetype with identity 1. -/
theorem claim_c2_witness :
    (∀ op ∈ [SpawnOp.mk 1 [2] [Val.mk 2 9], SpawnOp.mk 1 [2] [Val.mk 2 5]],
      op.schema = (fun _ => [2]) op.aid ∧ op.fields.map Val.ty = op.schema) ∧
    (∀ p ∈ (runSpawns (World.new : World Nat)
        [SpawnOp.mk 1 [2] [Val.mk 2 9], SpawnOp.mk 1 [2] [Val.mk 2 5]]).core.archetypes,
      ∀ q ∈ p.2.columns, q.2.col.data.len = p.2.length) :=
  ⟨by decide,
   claim_c2 (fun _ => [2])
     [SpawnOp.mk 1 [2] [Val.mk 2 9], SpawnOp.mk 1 [2] [Val.mk 2 5]] (by decide)⟩

/-- Claim C3: the claim says a push on a full array doubles the capacity so
that the length never exceeds the capacity and the write is in bounds.  The
code violates this: a matching push on an array with zero capacity (the state
every `new_uninit` array starts in) doubles zero to zero, then increments the
length past the capacity — the source then writes through index `len - 1` of
a zero-sized allocation.  This theorem evaluates the model at that failing
input. -/
theorem claim_c3_eval :
    ((VecAny.new_uninit 0).push (Val.mk 0 7)).len = 1 ∧
    ((VecAny.new_uninit 0).push (Val.mk 0 7)).cap = 0 ∧
    ((VecAny.new_uninit 0).push (Val.mk 0 7)).cap <
      ((VecAny.new_uninit 0).push (Val.mk 0 7)).len := by
  decide

/-- Claim C4: a push whose operand type identity differs from the array's
recorded identity returns normally and leaves the length, the stored
contents, the capacity and the identity unchanged. -/
theorem claim_c4 (va : VecAny) (item : Val) (h : item.ty ≠ va.id) :
    (va.push item).len = va.len ∧ (va.push item).data = va.data ∧
    (va.push item).cap = va.cap ∧ (va.push item).id = va.id := by
  obtain ⟨ptr, len, cap, data, id⟩ := va
  simp only at h
  have hne : id ≠ item.ty := fun hh => h hh.symm
  cases ptr <;> simp [VecAny.push, hne]

/-- Claim C4 witness: mismatched push on a fresh array of identity 0. -/
theorem claim_c4_witness :
    ((Val.mk 1 5).ty ≠ (VecAny.new_uninit 0).id) ∧
    (((VecAny.new_uninit 0).push (Val.mk 1 5)).len = (VecAny.new_uninit 0).len ∧
     ((VecAny.new_uninit 0).push (Val.mk 1 5)).data = (VecAny.new_uninit 0).data ∧
     ((VecAny.new_uninit 0).push (Val.mk 1 5)).cap = (VecAny.new_uninit 0).cap ∧
     ((VecAny.new_uninit 0).push (Val.mk 1 5)).id = (VecAny.new_uninit 0).id) :=
  ⟨by decide, claim_c4 (VecAny.new_uninit 0) (Val.mk 1 5) (by decide)⟩

/-- Claim C5: on a table whose schema contains the requested identity, with
its column allocated, at least one row present and no borrow outstanding:
two nested shared borrows both succeed; an exclusive borrow panics while a
shared or an exclusive borrow is outstanding — in general it panics whenever
the column's borrow flag is nonzero. -/
theorem claim_c5 (tb : Table) (t : Nat) (cell : RCell)
    (hfind : tb.findColumn t = some cell) (hflag : cell.flag = 0)
    (hid : cell.col.data.id = t) (hptr : cell.col.data.ptr = true)
    (_hrow : 1 ≤ tb.length) :
    (∃ tb1 tb2 xs, tb.column t = .success (tb1, xs) ∧
      tb1.column t = .success (tb2, xs) ∧
      tb1.column_mut t = .panics ∧
      tb2.column_mut t = .panics) ∧
    (∃ tbm ys, tb.column_mut t = .success (tbm, ys) ∧
      tbm.column_mut t = .panics) ∧
    (∀ (tbx : Table) (cellx : RCell),
      tbx.findColumn t = some cellx → cellx.flag ≠ 0 →
      tbx.column_mut t = .panics) := by
  have hdc : cell.col.data.downcast_ref t = some cell.col.data.data := by
    simp [VecAny.downcast_ref, hid, hptr]
  have hdm : cell.col.data.downcast_mut t = some cell.col.data.data := by
    simp [VecAny.downcast_mut, hid, hptr]
  refine ⟨?_, ?_, fun tbx cellx hf hfl => column_mut_panic tbx t cellx hf hfl⟩
  · obtain ⟨tb1, hc1, hf1, _⟩ :=
      column_success tb t cell cell.col.data.data hfind (by omega) hdc
    obtain ⟨tb2, hc2, hf2, _⟩ :=
      column_success tb1 t _ cell.col.data.data hf1 (by simp; omega) hdc
    refine ⟨tb1, tb2, cell.col.data.data, hc1, hc2, ?_, ?_⟩
    · exact column_mut_panic tb1 t _ hf1 (by simp [hflag])
    · exact column_mut_panic tb2 t _ hf2 (by simp [hflag])
  · obtain ⟨tbm, hcm, hfm, _⟩ :=
      column_mut_success tb t cell cell.col.data.data hfind hflag hdm
    exact ⟨tbm, cell.col.data.data, hcm,
      column_mut_panic tbm t _ hfm (by simp)⟩

/-- Claim C5 witness: a one-column table of identity 0 with one row. -/
theorem claim_c5_witness :
    ((Table.mk 1 [(0, RCell.mk 0 (Column.mk
        (VecAny.mk true 1 0 [Val.mk 0 5] 0)))]).findColumn 0 =
      some (RCell.mk 0 (Column.mk (VecAny.mk true 1 0 [Val.mk 0 5] 0))) ∧
     (RCell.mk 0 (Column.mk (VecAny.mk true 1 0 [Val.mk 0 5] 0))).flag = 0 ∧
     (RCell.mk 0 (Column.mk
       (VecAny.mk true 1 0 [Val.mk 0 5] 0))).col.data.id = 0 ∧
     (RCell.mk 0 (Column.mk
       (VecAny.mk true 1 0 [Val.mk 0 5] 0))).col.data.ptr = true ∧
     1 ≤ (Table.mk 1 [(0, RCell.mk 0 (Column.mk
       (VecAny.mk true 1 0 [Val.mk 0 5] 0)))]).length) ∧
    ((∃ tb1 tb2 xs,
        (Table.mk 1 [(0, RCell.mk 0 (Column.mk
          (VecAny.mk true 1 0 [Val.mk 0 5] 0)))]).column 0 = .success (tb1, xs) ∧
        tb1.column 0 = .success (tb2, xs) ∧
        tb1.column_mut 0 = .panics ∧
        tb2.column_mut 0 = .panics) ∧
      (∃ tbm ys,
        (Table.mk 1 [(0, RCell.mk 0 (Column.mk
          (VecAny.mk true 1 0 [Val.mk 0 5] 0)))]).column_mut 0 =
            .success (tbm, ys) ∧
        tbm.column_mut 0 = .panics) ∧
      (∀ (tbx : Table) (cellx : RCell),
        tbx.findColumn 0 = some cellx → cellx.flag ≠ 0 →
        tbx.column_mut 0 = .panics)) :=
  ⟨⟨by decide, by decide, by decide, by decide, by decide⟩,
   claim_c5 (Table.mk 1 [(0, RCell.mk 0 (Column.mk
       (VecAny.mk true 1 0 [Val.mk 0 5] 0)))]) 0
     (RCell.mk 0 (Column.mk (VecAny.mk true 1 0 [Val.mk 0 5] 0)))
     (by decide) (by decide) (by decide) (by decide) (by decide)⟩

/-- Claim C6: dispatch runs every registered system exactly once in
registration order — on a system list with a head, a tick runs the head's
tick behavior first and then dispatches the rest on the resulting world
state, and likewise for submit with the same event; a world with no systems
is left unchanged by tick and submit; a Handler system's tick behavior and a
Ticker system's event behavior leave the world state unchanged, and
with_handler / with_ticker append exactly those systems. -/
theorem claim_c6 {E : Type} (w : World E) (c : WorldCore) (s0 : Sys E)
    (rest : List (Sys E)) (e : E) (f : WorldCore → E → WorldCore)
    (g : WorldCore → WorldCore) :
    (World.tick ({ core := c, systems := [] } : World E) =
      { core := c, systems := [] }) ∧
    (World.submit ({ core := c, systems := [] } : World E) e =
      { core := c, systems := [] }) ∧
    (World.tick ({ core := c, systems := s0 :: rest } : World E) =
      { core := (World.tick ({ core := s0.tick c, systems := rest } : World E)).core
        systems := s0 :: rest }) ∧
    (World.submit ({ core := c, systems := s0 :: rest } : World E) e =
      { core := (World.submit
          ({ core := s0.event c e, systems := rest } : World E) e).core
        systems := s0 :: rest }) ∧
    ((Sys.handler f).tick c = c) ∧
    ((Sys.ticker g).event c e = c) ∧
    ((w.with_handler f).systems = w.systems ++ [Sys.handler f]) ∧
    ((w.with_ticker g).systems = w.systems ++ [Sys.ticker g]) :=
  ⟨rfl, rfl, rfl, rfl, rfl, rfl, rfl, rfl⟩

/-- Claim C7: inserting a resource then reading it returns an equal value;
removing it afterwards returns the value itself and a subsequent read
signals absence; removing an absent resource returns the absence signal and
leaves the world unchanged. -/
theorem claim_c7 {E : Type} (w : World E) (v : Val) (t : Nat)
    (hnd : (w.core.resources.map Prod.fst).Nodup) :
    ((w.with_resource v).get v.ty = some v) ∧
    (((w.with_resource v).remove v.ty).2 = some v) ∧
    (((w.with_resource v).remove v.ty).1.get v.ty = none) ∧
    (w.get t = none → w.remove t = (w, none)) := by
  refine ⟨?_, ?_, ?_, ?_⟩
  · simp only [World.with_resource, World.get]
    exact lookupA_insertA_self w.core.resources v.ty v
  · simp only [World.with_resource, World.remove]
    exact lookupA_insertA_self w.core.resources v.ty v
  · simp only [World.with_resource, World.remove, World.get]
    exact lookupA_eraseA_self _ v.ty
      (insertA_keys_nodup w.core.resources v.ty v hnd)
  · intro habs
    simp only [World.get] at habs
    simp only [World.remove, habs, eraseA_absent w.core.resources t habs]

/-- Claim C7 witness: a fresh world, resource of identity 3, absent
identity 4. -/
theorem claim_c7_witness :
    (((World.new : World Nat).core.resources.map Prod.fst).Nodup ∧
     ((World.new : World Nat).with_resource (Val.mk 3 8)).get 3 =
       some (Val.mk 3 8) ∧
     (((World.new : World Nat).with_resource (Val.mk 3 8)).remove 3).2 =
       some (Val.mk 3 8) ∧
     ((((World.new : World Nat).with_resource (Val.mk 3 8)).remove 3).1.get 3 =
       none)) ∧
    ((World.new : World Nat).get 4 = none →
      (World.new : World Nat).remove 4 = (World.new, none)) := by
  have h := claim_c7 (World.new : World Nat) (Val.mk 3 8) 4 (by decide)
  exact ⟨⟨by decide, h.1, h.2.1, h.2.2.1⟩, h.2.2.2⟩

/-- Claim C8 counterexample: the claim states that downcast succeeds if and
only if the stored identity matches; a freshly constructed unallocated array
with matching identity 0 still yields the absence signal, because of the
early return on an unallocated buffer. -/
theorem claim_c8_counterexample :
    ¬ (∀ (va : VecAny) (t : Nat), (va.downcast_ref t).isSome ↔ va.id = t) := by
  intro h
  have h0 := (h (VecAny.new_uninit 0) 0).mpr rfl
  simp [VecAny.new_uninit, VecAny.downcast_ref] at h0

/-- Claim C8 as amended: downcast_ref and downcast_mut return a typed slice
view if and only if the stored identity equals the requested identity AND
the backing buffer has been allocated; otherwise they return the absence
signal. -/
theorem claim_c8_amended (va : VecAny) (t : Nat) :
    ((va.downcast_ref t).isSome ↔ va.id = t ∧ va.ptr = true) ∧
    ((va.downcast_mut t).isSome ↔ va.id = t ∧ va.ptr = true) := by
  obtain ⟨ptr, len, cap, data, id⟩ := va
  by_cases h : id = t <;> cases ptr <;>
    simp [VecAny.downcast_ref, VecAny.downcast_mut, h]

/-- Claim C9: a spawn on a world without a table for the archetype creates
the table lazily and appends the one row, returning index 0; a spawn on a
world that already has the table reuses that table without resetting it,
appends exactly one row, and returns the table's former row count (the new
count minus one); hence the n-th spawn of an archetype on a fresh world
returns index n-1. -/
theorem claim_c9 {E : Type} (w : World E) (aid : Nat) (s : List Nat)
    (e : List Val) (tb : Table) (es : List (List Val)) :
    (lookupA w.core.archetypes aid = none →
      (w.spawn aid s e).1.core.archetypes =
        insertA (insertA w.core.archetypes aid (Table.new s)) aid
          (archetypeAdd e (Table.new s)) ∧
      (w.spawn aid s e).2 = 0) ∧
    (lookupA w.core.archetypes aid = some tb →
      (w.spawn aid s e).1.core.archetypes =
        insertA w.core.archetypes aid (archetypeAdd e tb) ∧
      (archetypeAdd e tb).length = tb.length + 1 ∧
      (w.spawn aid s e).2 = tb.length) ∧
    (spawnSeq (World.new : World E) aid s es).2 = List.range es.length := by
  refine ⟨?_, ?_, ?_⟩
  · intro hlk
    simp only [World.spawn, hlk, Option.isSome_none, Bool.false_eq_true,
      if_false, World.register, lookupA_insertA_self]
    exact ⟨by simp, by simp [archetypeAdd, Table.new]⟩
  · intro hlk
    simp only [World.spawn, hlk, Option.isSome_some, if_true]
    exact ⟨by simp, by simp [archetypeAdd], by simp [archetypeAdd]⟩
  · cases es with
    | nil => rfl
    | cons e0 es0 =>
        have hsp : ((World.new : World E).spawn aid s e0).2 = 0 := by
          simp [World.spawn, World.new, World.register, lookupA, insertA,
            archetypeAdd, Table.new]
        have hlk1 : lookupA ((World.new : World E).spawn aid s e0).1.core.archetypes
            aid = some (archetypeAdd e0 (Table.new s)) := by
          simp only [World.spawn, World.new, World.register]
          simp [lookupA, insertA]
        have hrest := spawnSeq_ids es0 ((World.new : World E).spawn aid s e0).1
          aid s (archetypeAdd e0 (Table.new s)) hlk1
        have hlen : (archetypeAdd e0 (Table.new s)).length = 1 := rfl
        simp only [spawnSeq, hsp, hrest, hlen]
        rw [List.length_cons, List.range_succ_eq_map]
        congr 1
        apply List.map_congr_left
        intro a _
        omega

/-- Claim C9 witness: fresh-world spawn, follow-up spawn on the existing
table, and the identity sequence for two spawns. -/
theorem claim_c9_witness :
    (lookupA (World.new : World Nat).core.archetypes 7 = none ∧
      ((World.new : World Nat).spawn 7 [1] [Val.mk 1 2]).1.core.archetypes =
        insertA (insertA (World.new : World Nat).core.archetypes 7
          (Table.new [1])) 7 (archetypeAdd [Val.mk 1 2] (Table.new [1])) ∧
      ((World.new : World Nat).spawn 7 [1] [Val.mk 1 2]).2 = 0) ∧
    (lookupA ((World.new : World Nat).spawn 7 [1] [Val.mk 1 2]).1.core.archetypes 7 =
        some (archetypeAdd [Val.mk 1 2] (Table.new [1])) ∧
      (((World.new : World Nat).spawn 7 [1] [Val.mk 1 2]).1.spawn 7 [1]
          [Val.mk 1 3]).1.core.archetypes =
        insertA ((World.new : World Nat).spawn 7 [1] [Val.mk 1 2]).1.core.archetypes 7
          (archetypeAdd [Val.mk 1 3] (archetypeAdd [Val.mk 1 2] (Table.new [1]))) ∧
      (archetypeAdd [Val.mk 1 3] (archetypeAdd [Val.mk 1 2] (Table.new [1]))).length =
        (archetypeAdd [Val.mk 1 2] (Table.new [1])).length + 1 ∧
      (((World.new : World Nat).spawn 7 [1] [Val.mk 1 2]).1.spawn 7 [1]
          [Val.mk 1 3]).2 =
        (archetypeAdd [Val.mk 1 2] (Table.new [1])).length) ∧
    (spawnSeq (World.new : World Nat) 7 [1] [[Val.mk 1 2], [Val.mk 1 3]]).2 =
      List.range 2 := by
  have h1 := (claim_c9 (World.new : World Nat) 7 [1] [Val.mk 1 2]
    (Table.new []) []).1 (by decide)
  have h2 := (claim_c9 ((World.new : World Nat).spawn 7 [1] [Val.mk 1 2]).1 7 [1]
    [Val.mk 1 3] (archetypeAdd [Val.mk 1 2] (Table.new [1])) []).2.1 (by decide)
  have h3 := (claim_c9 (World.new : World Nat) 7 [1] [Val.mk 1 2]
    (Table.new []) [[Val.mk 1 2], [Val.mk 1 3]]).2.2
  exact ⟨⟨by decide, h1.1, h1.2⟩, ⟨by decide, h2.1, h2.2.1, h2.2.2⟩, h3⟩

/-- Claim C10: a spawn changes only its own archetype's table — the bindings
of every other archetype identity, all resources, and the registered system
list are unchanged. -/
theorem claim_c10 {E : Type} (w : World E) (aid aid1 : Nat) (s : List Nat)
    (fields : List Val) (h : aid1 ≠ aid) :
    lookupA (w.spawn aid s fields).1.core.archetypes aid1 =
      lookupA w.core.archetypes aid1 ∧
    (w.spawn aid s fields).1.core.resources = w.core.resources ∧
    (w.spawn aid s fields).1.systems = w.systems := by
  cases hlk : lookupA w.core.archetypes aid with
  | some tb =>
      simp only [World.spawn, hlk, Option.isSome_some, if_true]
      exact ⟨lookupA_insertA_ne _ _ _ _ h, by simp, by simp⟩
  | none =>
      simp only [World.spawn, hlk, Option.isSome_none, Bool.false_eq_true,
        if_false, World.register, lookupA_insertA_self]
      refine ⟨?_, by simp, by simp⟩
      rw [lookupA_insertA_ne _ _ _ _ h, lookupA_insertA_ne _ _ _ _ h]

/-- Claim C10 witness: spawning archetype 0 in a fresh world leaves
archetype 1, the resources and the systems untouched. -/
theorem claim_c10_witness :
    ((1 : Nat) ≠ 0) ∧
    (lookupA ((World.new : World Nat).spawn 0 [2] [Val.mk 2 3]).1.core.archetypes 1 =
      lookupA (World.new : World Nat).core.archetypes 1 ∧
    ((World.new : World Nat).spawn 0 [2] [Val.mk 2 3]).1.core.resources =
      (World.new : World Nat).core.resources ∧
    ((World.new : World Nat).spawn 0 [2] [Val.mk 2 3]).1.systems =
      (World.new : World Nat).systems) :=
  ⟨by decide, claim_c10 (World.new : World Nat) 0 1 [2] [Val.mk 2 3] (by decide)⟩

end Tecs
